import Mathlib

/- Verification development for the bunutils library: a query-construction
and transaction-coordination layer over the bun relational-database client.

The query builder (`bun.SelectQuery`) is modelled as a trace of emitted
clause operations; every builder method appends one operation.  Selectors
(Go `func(*bun.SelectQuery) *bun.SelectQuery`, nilable) are modelled as
`Option` of query transformers.  The transaction layer is modelled with an
explicit context chain, an event trace for begin/commit/rollback, and a
deep embedding of unit-of-work programs built from nested `InTx` calls. -/

namespace Bunutils

/-- Bound arguments of an emitted condition (`bun.Ident`, plain values,
`bun.In` lists, `time.UnixMilli` stamps). -/
inductive Arg where
  | ident : String → Arg
  | str : String → Arg
  | int : Int → Arg
  | timeMilli : Int → Arg
  | strList : List String → Arg
  | intList : List Int → Arg

/-- One clause operation recorded on a select query. -/
inductive QueryOp where
  | cond : String → List Arg → QueryOp
  | group : String → List QueryOp → QueryOp
  | whereDeleted : QueryOp
  | whereAllWithDeleted : QueryOp
  | column : List String → QueryOp
  | excludeColumn : List String → QueryOp
  | limit : Int → QueryOp
  | offset : Int → QueryOp
  | order : String → QueryOp
  | orderExpr : String → QueryOp
  | distinctOn : String → QueryOp

/-- Model of `bun.SelectQuery`: the list of clause operations applied so far. -/
structure SelectQuery where
  ops : List QueryOp

def SelectQuery.add (q : SelectQuery) (op : QueryOp) : SelectQuery :=
  ⟨q.ops ++ [op]⟩

/-- `q.Where(template, args...)`. -/
def SelectQuery.Where (q : SelectQuery) (tmpl : String) (args : List Arg) : SelectQuery :=
  q.add (QueryOp.cond tmpl args)

/-- `q.WhereGroup(sep, fn)`: the conditions `fn` emits form a nested group. -/
def SelectQuery.WhereGroup (q : SelectQuery) (sep : String)
    (fn : SelectQuery → SelectQuery) : SelectQuery :=
  q.add (QueryOp.group sep (fn ⟨[]⟩).ops)

def SelectQuery.WhereDeleted (q : SelectQuery) : SelectQuery :=
  q.add QueryOp.whereDeleted

def SelectQuery.WhereAllWithDeleted (q : SelectQuery) : SelectQuery :=
  q.add QueryOp.whereAllWithDeleted

def SelectQuery.Column (q : SelectQuery) (cols : List String) : SelectQuery :=
  q.add (QueryOp.column cols)

def SelectQuery.ExcludeColumn (q : SelectQuery) (cols : List String) : SelectQuery :=
  q.add (QueryOp.excludeColumn cols)

def SelectQuery.Limit (q : SelectQuery) (n : Int) : SelectQuery :=
  q.add (QueryOp.limit n)

def SelectQuery.Offset (q : SelectQuery) (n : Int) : SelectQuery :=
  q.add (QueryOp.offset n)

def SelectQuery.Order (q : SelectQuery) (e : String) : SelectQuery :=
  q.add (QueryOp.order e)

/-- `type Selector func(*bun.SelectQuery) *bun.SelectQuery`; `none` is the
nil function value. -/
abbrev Selector := Option (SelectQuery → SelectQuery)

/-- Applying a (non-nil) selector to a query; `none` is never applied by
the library code (`Apply` skips nil members), it acts as identity here
only so the observation function is total. -/
def selApp (sel : Selector) (q : SelectQuery) : SelectQuery :=
  match sel with
  | none => q
  | some f => f q

/-- Body of the closure returned by `Apply`: apply each non-nil selector
in order. -/
def applyFn (selectors : List Selector) (q : SelectQuery) : SelectQuery :=
  selectors.foldl
    (fun q sel =>
      match sel with
      | none => q
      | some f => f q)
    q

/-- `Apply` combines multiple Selectors into one. -/
def Apply (selectors : List Selector) : Selector :=
  some (fun q => applyFn selectors q)

/-- `ApplyIf` applies the provided Selectors when the condition is true,
otherwise returns the nil Selector. -/
def ApplyIf (cond : Bool) (selectors : List Selector) : Selector :=
  if !cond then none else Apply selectors

/-- `OrGroup` adds a group to the WHERE clause joined internally by OR. -/
def OrGroup (selectors : List Selector) : Selector :=
  some (fun q => q.WhereGroup " OR " (fun sq => applyFn selectors sq))

/-- `AndGroup` adds a group to the WHERE clause joined internally by AND. -/
def AndGroup (selectors : List Selector) : Selector :=
  some (fun q => q.WhereGroup " AND " (fun sq => applyFn selectors sq))

/-- Modelled from the spec: the repository's generic slice helper `Map`
(not included under src/) applies the function to every element together
with its index, preserving order. -/
def Map {α β : Type} (xs : List α) (fn : α → Nat → β) : List β :=
  xs.enum.map (fun p => fn p.2 p.1)

/-- `Or` adds an AND group in which each input selector is wrapped in its
own OR group. -/
def Or (selectors : List Selector) : Selector :=
  AndGroup (Map selectors (fun s _ => OrGroup [s]))

/-- The single-quote character, used when quoting JSON path segments as
SQL string literals. -/
def squote : String := String.singleton (Char.ofNat 39)

/-- `strings.ReplaceAll(segment, single-quote, two single-quotes)`:
double every single-quote character of the segment. -/
def escapeJsonPathSegment (segment : String) : String :=
  String.join (segment.data.map (fun ch =>
    if ch = Char.ofNat 39 then String.singleton ch ++ String.singleton ch
    else String.singleton ch))

/-- The chunk appended for one path segment: a space, the traversal
operator (text extraction exactly when `text` is set and the segment sits
at the final index of the path), a space, and the escaped segment quoted
as a SQL string literal. -/
def jsonbSegmentChunk (pathLen : Nat) (text : Bool) (p : Nat × String) : String :=
  " " ++ (if text && p.1 = pathLen - 1 then "->>" else "->") ++ " "
    ++ squote ++ escapeJsonPathSegment p.2 ++ squote

/-- `jsonbPathExpression(path, text)`: left-to-right chain of JSON
traversal operators over the base column reference, skipping empty
segments. -/
def jsonbPathExpression (path : List String) (text : Bool) : String :=
  path.enum.foldl
    (fun expr p =>
      if p.2 = "" then expr
      else expr ++ jsonbSegmentChunk path.length text p)
    "?TableAlias.?"

/-- Index (in the original path) of the last non-empty segment, if any. -/
def lastNonEmptyIdx (path : List String) : Option Nat :=
  ((path.enum.filter (fun p => p.2 ≠ "")).getLast?).map (fun p => p.1)

/-- The claim C2 as written: one operator per non-empty segment in order,
with the text-extraction operator on the last NON-EMPTY segment when
`text` is set. -/
def jsonbPathExpressionLastNonEmpty (path : List String) (text : Bool) : String :=
  "?TableAlias.?" ++ String.join
    ((path.enum.filter (fun p => p.2 ≠ "")).map (fun p =>
      " " ++ (if text && decide (lastNonEmptyIdx path = some p.1) then "->>" else "->")
        ++ " " ++ squote ++ escapeJsonPathSegment p.2 ++ squote))

/-- Declarative characterization of the code: one chunk per non-empty
segment, in order, where the operator is text extraction exactly when
`text` is set and the segment occupies the final index of the path. -/
def jsonbPathExpressionAmended (path : List String) (text : Bool) : String :=
  "?TableAlias.?" ++ String.join
    ((path.enum.filter (fun p => p.2 ≠ "")).map (jsonbSegmentChunk path.length text))

/-- Default column names injected lazily by the filter descriptor. -/
def DefaultIDCol : String := "id"

def DefaultFlagsCol : String := "flags"

def DefaultCreatedAtCol : String := "created_at"

def DefaultUpdatedAtCol : String := "updated_at"

/-- `type Order map[int]string`: mapping from small integer sort keys to
column names, modelled as an association list with unique keys. -/
abbrev Order := List (Int × String)

/-- Map lookup `m[k]` with its `ok` flag. -/
def orderLookup (m : Order) (k : Int) : Option String :=
  (m.find? (fun p => p.1 = k)).map (fun p => p.2)

/-- The filter descriptor `Where`. -/
structure Where where
  ID : String := ""
  IDs : List String := []
  NotInIDs : List String := []
  HasFlags : List Int := []
  HasNotFlags : List Int := []
  OnlyDeleted : Bool := false
  WithDeleted : Bool := false
  Limit : Option Int := none
  Offset : Option Int := none
  FlagsCol : String := ""
  CreatedAtCol : String := ""
  UpdatedAtCol : String := ""
  CreatedAfter : Option Int := none
  CreatedBefore : Option Int := none
  UpdatedAfter : Option Int := none
  UpdatedBefore : Option Int := none
  SelectColumns : List String := []
  ExcludeColumns : List String := []
  SortBy : Int := 0
  SortDesc : Bool := false
  Order : Order := []

/-- `func (w *Where) Where(q)`: apply-filters.  The receiver is a pointer,
so the nil receiver acts as identity and the lazy column-name defaulting
mutates the caller's descriptor; the updated descriptor is returned as the
first component. -/
def Where.Where (w : Option Where) (q : SelectQuery) : Option Where × SelectQuery :=
  match w with
  | none => (none, q)
  | some w0 =>
    let w1 := { w0 with
      FlagsCol := if w0.FlagsCol = "" then DefaultFlagsCol else w0.FlagsCol
      CreatedAtCol := if w0.CreatedAtCol = "" then DefaultCreatedAtCol else w0.CreatedAtCol
      UpdatedAtCol := if w0.UpdatedAtCol = "" then DefaultUpdatedAtCol else w0.UpdatedAtCol }
    let q := if w1.ID ≠ "" then
        q.Where "?TableAlias.? = ?" [Arg.ident DefaultIDCol, Arg.str w1.ID]
      else q
    let q := if w1.IDs.length > 0 then
        q.Where "?TableAlias.? IN (?)" [Arg.ident DefaultIDCol, Arg.strList w1.IDs]
      else q
    let q := if w1.NotInIDs.length > 0 then
        q.Where "?TableAlias.? NOT IN (?)" [Arg.ident DefaultIDCol, Arg.strList w1.NotInIDs]
      else q
    let q := w1.HasFlags.foldl
      (fun q flag =>
        q.Where "?TableAlias.? & ? = ?" [Arg.ident DefaultFlagsCol, Arg.int flag, Arg.int flag])
      q
    let q := w1.HasNotFlags.foldl
      (fun q flag =>
        q.Where "?TableAlias.? & ? = 0" [Arg.ident DefaultFlagsCol, Arg.int flag])
      q
    let q := if w1.OnlyDeleted then q.WhereDeleted
      else if w1.WithDeleted then q.WhereAllWithDeleted
      else q
    let q := match w1.CreatedAfter with
      | some v => q.Where "?TableAlias.? >= ?" [Arg.ident DefaultCreatedAtCol, Arg.timeMilli v]
      | none => q
    let q := match w1.CreatedBefore with
      | some v => q.Where "?TableAlias.? <= ?" [Arg.ident DefaultCreatedAtCol, Arg.timeMilli v]
      | none => q
    let q := match w1.UpdatedAfter with
      | some v => q.Where "?TableAlias.? >= ?" [Arg.ident DefaultUpdatedAtCol, Arg.timeMilli v]
      | none => q
    let q := match w1.UpdatedBefore with
      | some v => q.Where "?TableAlias.? <= ?" [Arg.ident DefaultUpdatedAtCol, Arg.timeMilli v]
      | none => q
    (some w1, q)

/-- `func OrderAsc(col)`: `fmt.Sprintf` of the column followed by `asc`. -/
def OrderAsc (col : String) : String := col ++ " asc"

/-- `func OrderDesc(col)`: `fmt.Sprintf` of the column followed by `desc`. -/
def OrderDesc (col : String) : String := col ++ " desc"

/-- `func (w *Where) Select(q)`: apply-projection-and-order. -/
def Where.Select (w : Option Bunutils.Where) (q : SelectQuery) : SelectQuery :=
  match w with
  | none => q
  | some w0 =>
    let q := if w0.SelectColumns.length > 0 then q.Column w0.SelectColumns else q
    let q := if w0.ExcludeColumns.length > 0 then q.ExcludeColumn w0.ExcludeColumns else q
    let q := match w0.Limit with
      | some n => q.Limit n
      | none => q
    let q := match w0.Offset with
      | some n => q.Offset n
      | none => q
    match orderLookup w0.Order w0.SortBy with
    | some col => if w0.SortDesc then q.Order (OrderDesc col) else q.Order (OrderAsc col)
    | none => q

/-- Spec-side description of apply-projection-and-order WITHOUT the order
clause: column projection list, column exclusion list, limit, offset. -/
def selectProjectionSpec (w : Where) (q : SelectQuery) : SelectQuery :=
  let q := if w.SelectColumns.length > 0 then q.Column w.SelectColumns else q
  let q := if w.ExcludeColumns.length > 0 then q.ExcludeColumn w.ExcludeColumns else q
  let q := match w.Limit with
    | some n => q.Limit n
    | none => q
  match w.Offset with
  | some n => q.Offset n
  | none => q

/-- `const TxKey txKey = 1`. -/
def TxKey : Int := 1

/-- A value stored in a context slot: either a (non-nil) `*bun.Tx`
reference, identified by a number, or a value of any other type. -/
inductive CtxVal where
  | txPtr : Nat → CtxVal
  | other : CtxVal
deriving DecidableEq

/-- A Go context chain: `context.Background()` plus `context.WithValue`
derivations. -/
inductive Context where
  | background : Context
  | withValue : Context → Int → CtxVal → Context
deriving DecidableEq

/-- `ctx.Value(key)`: the innermost binding of the key wins. -/
def Context.valueAt : Context → Int → Option CtxVal
  | Context.background, _ => none
  | Context.withValue parent k v, key => if k = key then some v else parent.valueAt key

/-- `TxFromContext`: the stored handle, or absent when unset or of the
wrong stored type. -/
def TxFromContext (ctx : Context) : Option Nat :=
  match ctx.valueAt TxKey with
  | some (CtxVal.txPtr t) => some t
  | _ => none

/-- `TxToContext`: derive a context (from background when given nil)
holding the transaction reference. -/
def TxToContext (ctx : Option Context) (tx : Nat) : Context :=
  match ctx with
  | none => Context.withValue Context.background TxKey (CtxVal.txPtr tx)
  | some c => Context.withValue c TxKey (CtxVal.txPtr tx)

/-- Go error values as produced by this layer: opaque base errors and the
combined error `fmt.Errorf` builds from a unit-of-work error (wrapped
with the w verb, so unwrappable) and a rollback failure (formatted with
the v verb, so not unwrappable). -/
inductive GoErr where
  | base : Nat → GoErr
  | wrapRollback : GoErr → GoErr → GoErr
deriving DecidableEq

/-- `errors.Is(e, target)` for this error shape: match the value itself or
recurse into the wrapped (w-verb) operand. -/
def errorsIs : GoErr → GoErr → Bool
  | GoErr.base n, target => decide (GoErr.base n = target)
  | GoErr.wrapRollback o r, target =>
      decide (GoErr.wrapRollback o r = target) || errorsIs o target

/-- Result of running a unit of work: a normal return carrying an optional
error, or an in-flight panic carrying the panic value. -/
inductive Outcome where
  | norm : Option GoErr → Outcome
  | panicked : Nat → Outcome
deriving DecidableEq

/-- Observable transaction-lifecycle events, in order of occurrence. -/
inductive Ev where
  | begin : Nat → Ev
  | commit : Nat → Ev
  | rollback : Nat → Ev
deriving DecidableEq

/-- World state threaded through a call chain: the next fresh transaction
identity and the event trace so far. -/
structure St where
  nextTx : Nat
  trace : List Ev
deriving DecidableEq

/-- Behaviour of the external database collaborator: whether begin of the
next transaction, commit of a given transaction, or rollback of a given
transaction fails, and with which error. -/
structure DBEnv where
  beginFail : Nat → Option GoErr
  commitFail : Nat → Option GoErr
  rollbackFail : Nat → Option GoErr

/-- `func InTx(ctx, client, fn)`.  The unit of work `fn` is state-passing;
`client` is represented by the collaborator behaviour `env`.  A frame that
finds a transaction in its context is nested: it runs `fn` with the
derived context and manages nothing.  Otherwise the frame is the root: it
begins a transaction, runs `fn` under the derived context, rolls back and
re-raises on panic, commits on nil error (propagating a commit failure
as-is), and rolls back on error (combining a rollback failure with the
original error). -/
def InTx (env : DBEnv) (fn : St → Context → St × Outcome)
    (s : St) (ctx : Context) : St × Outcome :=
  match TxFromContext ctx with
  | some t =>
      fn s (TxToContext (some ctx) t)
  | none =>
      match env.beginFail s.nextTx with
      | some e => (s, Outcome.norm (some e))
      | none =>
        let t := s.nextTx
        let s1 : St := { nextTx := t + 1, trace := s.trace ++ [Ev.begin t] }
        match fn s1 (TxToContext (some ctx) t) with
        | (s2, Outcome.panicked v) =>
            ({ s2 with trace := s2.trace ++ [Ev.rollback t] }, Outcome.panicked v)
        | (s2, Outcome.norm none) =>
            ({ s2 with trace := s2.trace ++ [Ev.commit t] },
             match env.commitFail t with
             | some ce => Outcome.norm (some ce)
             | none => Outcome.norm none)
        | (s2, Outcome.norm (some e)) =>
            ({ s2 with trace := s2.trace ++ [Ev.rollback t] },
             match env.rollbackFail t with
             | some re => Outcome.norm (some (GoErr.wrapRollback e re))
             | none => Outcome.norm (some e))

/-- Deep embedding of unit-of-work bodies: finish with an outcome, or make
a nested `InTx` call and continue with the error it returned (a panic in
the nested call propagates past the continuation, as in Go). -/
inductive Prog where
  | done : Outcome → Prog
  | inTxThen : Prog → (Option GoErr → Prog) → Prog

/-- Run a unit-of-work program under a given state and context. -/
def runProg (env : DBEnv) : Prog → St → Context → St × Outcome
  | Prog.done out, s, _ => (s, out)
  | Prog.inTxThen body k, s, ctx =>
      match InTx env (fun s2 c2 => runProg env body s2 c2) s ctx with
      | (s1, Outcome.panicked v) => (s1, Outcome.panicked v)
      | (s1, Outcome.norm e) => runProg env (k e) s1 ctx

/-- A collaborator on which begin, commit and rollback always succeed. -/
def env0 : DBEnv :=
  ⟨fun _ => none, fun _ => none, fun _ => none⟩

/-- An initial world state. -/
def st0 : St := ⟨0, []⟩

/-- A context already carrying transaction reference 0. -/
def ctx0 : Context := Context.withValue Context.background TxKey (CtxVal.txPtr 0)

lemma str_join_cons (a : String) (l : List String) :
    String.join (a :: l) = a ++ String.join l := by
  cases a with
  | mk d =>
    simp only [String.join_eq, List.map_cons, List.flatten_cons]
    rfl

lemma foldl_skip_emit (f : Nat × String → String) :
    ∀ (l : List (Nat × String)) (base : String),
      l.foldl (fun expr p => if p.2 = "" then expr else expr ++ f p) base
        = base ++ String.join ((l.filter (fun p => p.2 ≠ "")).map f) := by
  intro l
  induction l with
  | nil => intro base; simp [String.join]
  | cons p l ih =>
    intro base
    by_cases hp : p.2 = ""
    · simp [List.foldl_cons, hp, ih, List.filter_cons]
    · simp only [List.foldl_cons, if_neg hp, ih, List.filter_cons]
      simp [hp, str_join_cons, String.append_assoc]

lemma enumFrom_filter_all_empty :
    ∀ (path : List String) (n : Nat), (∀ s ∈ path, s = "") →
      (path.enumFrom n).filter (fun p => p.2 ≠ "") = [] := by
  intro path
  induction path with
  | nil => intro n _; rfl
  | cons a l ih =>
    intro n h
    have ha : a = "" := h a (List.mem_cons_self a l)
    have hl : ∀ s ∈ l, s = "" := fun s hs => h s (List.mem_cons_of_mem a hs)
    simpa [List.enumFrom, List.filter_cons, ha] using ih (n + 1) hl

/-- C2 counterexample: with a trailing empty segment and `wantText` set,
the code does NOT put the text-extraction operator on the last non-empty
segment (it reserves it for the final index position, which here holds the
empty segment and is skipped), so the claim as written fails on the path
consisting of `a` followed by the empty string. -/
theorem jsonbPathExpression_lastNonEmpty_counterexample :
    jsonbPathExpression ["a", ""] true
      ≠ jsonbPathExpressionLastNonEmpty ["a", ""] true := by decide

/-- C2 (amended): `jsonbPathExpression` emits one traversal chunk per
non-empty segment in order, skipping empty segments entirely; the chunk
operator is text extraction exactly when `wantText` is set and the segment
occupies the final index position of the path (so a trailing empty segment
means no text-extraction operator is emitted at all); a path of only empty
segments leaves the root identifier expression unchanged. -/
theorem jsonbPathExpression_operators (path : List String) (text : Bool) :
    jsonbPathExpression path text = jsonbPathExpressionAmended path text
    ∧ ((∀ s ∈ path, s = "") → jsonbPathExpression path text = "?TableAlias.?") := by
  have h1 : jsonbPathExpression path text = jsonbPathExpressionAmended path text := by
    simpa [jsonbPathExpression, jsonbPathExpressionAmended] using
      foldl_skip_emit (jsonbSegmentChunk path.length text) path.enum "?TableAlias.?"
  refine ⟨h1, fun h => ?_⟩
  have hf : path.enum.filter (fun p => p.2 ≠ "") = [] := by
    simpa [List.enum] using enumFrom_filter_all_empty path 0 h
  rw [h1, jsonbPathExpressionAmended, hf]
  simp [String.join]

/-- C2 witness: a path of only empty segments emits no traversal operators
and leaves the root identifier expression unchanged. -/
theorem jsonbPathExpression_operators_witness :
    jsonbPathExpression ["", ""] true = "?TableAlias.?" :=
  (jsonbPathExpression_operators ["", ""] true).2 (by decide)

/-- C7: the Selector returned by `Apply(P...)` transforms a query exactly
as sequentially applying each non-nil member of `P` in argument order with
nil members skipped; `ApplyIf(false, P...)` is the nil Selector; and
`ApplyIf(true, P...)` is the very Selector `Apply(P...)` returns. -/
theorem apply_applyIf_spec (P : List Selector) (q : SelectQuery) :
    selApp (Apply P) q = (P.filterMap id).foldl (fun acc f => f acc) q
    ∧ ApplyIf false P = none
    ∧ ApplyIf true P = Apply P := by
  refine ⟨?_, rfl, rfl⟩
  show applyFn P q = (P.filterMap id).foldl (fun acc f => f acc) q
  induction P generalizing q with
  | nil => rfl
  | cons s l ih =>
    cases s with
    | none => simpa [applyFn, List.filterMap_cons] using ih q
    | some f => simpa [applyFn, List.filterMap_cons] using ih (f q)

lemma enumFrom_map_snd {α β : Type} (g : α → β) :
    ∀ (l : List α) (n : Nat), (l.enumFrom n).map (fun p => g p.2) = l.map g := by
  intro l
  induction l with
  | nil => intro n; rfl
  | cons a l ih => intro n; simp [List.enumFrom, ih]

lemma Map_const_idx {α β : Type} (xs : List α) (g : α → β) :
    Map xs (fun s _ => g s) = xs.map g := by
  simpa [Map, List.enum] using enumFrom_map_snd g xs 0

/-- C8: `Or(P...)` is observationally identical to `AndGroup` applied to
the list obtained by wrapping each input selector individually in its own
single-element `OrGroup`, in the original order. -/
theorem or_eq_andGroup_of_orGroups (P : List Selector) (q : SelectQuery) :
    selApp (Or P) q = selApp (AndGroup (P.map (fun s => OrGroup [s]))) q := by
  rw [Or, Map_const_idx]

/-- C5: every condition the apply-filters operation emits references the
constant default column names, never the descriptor's FlagsCol,
CreatedAtCol or UpdatedAtCol overrides: the emitted query is identical to
the one produced by the same descriptor with blank overrides — the lazily
injected defaults are written into the descriptor but never read when
emitting conditions. -/
theorem where_ignores_column_overrides (w : Where) (q : SelectQuery) :
    (Where.Where (some w) q).2
      = (Where.Where (some { w with FlagsCol := "", CreatedAtCol := "", UpdatedAtCol := "" }) q).2 :=
  rfl

/-- C10: when both OnlyDeleted and WithDeleted are set, apply-filters
applies only the only-deleted visibility mode — the result is the same as
for the descriptor with WithDeleted cleared, so only-deleted takes
precedence and the include-deleted mode is never applied. -/
theorem where_onlyDeleted_precedence (w : Where) (q : SelectQuery)
    (h1 : w.OnlyDeleted = true) (h2 : w.WithDeleted = true) :
    (Where.Where (some w) q).2
      = (Where.Where (some { w with WithDeleted := false }) q).2 := by
  simp [Where.Where, h1]

/-- C10 witness: a concrete descriptor with both soft-delete flags set. -/
theorem where_onlyDeleted_precedence_witness :
    (Where.Where (some { OnlyDeleted := true, WithDeleted := true }) ⟨[]⟩).2
      = (Where.Where (some { OnlyDeleted := true, WithDeleted := false }) ⟨[]⟩).2 :=
  where_onlyDeleted_precedence { OnlyDeleted := true, WithDeleted := true } ⟨[]⟩ rfl rfl

/-- C9: apply-projection-and-order adds an order expression only when the
descriptor's SortBy key is present in the Order Map, formatted by
`OrderAsc` or `OrderDesc` according to SortDesc; an absent key yields
exactly the projection/exclusion/limit/offset part with no order clause,
and the operation is total (never a failure). -/
theorem select_order_only_when_resolved (w : Where) (q : SelectQuery) :
    Where.Select (some w) q =
      (match orderLookup w.Order w.SortBy with
       | none => selectProjectionSpec w q
       | some col =>
           (selectProjectionSpec w q).add
             (QueryOp.order (if w.SortDesc then OrderDesc col else OrderAsc col))) := by
  cases h : orderLookup w.Order w.SortBy with
  | none => simp [Where.Select, selectProjectionSpec, h]
  | some col =>
    cases hd : w.SortDesc <;>
      simp [Where.Select, selectProjectionSpec, h, hd, SelectQuery.Order]

lemma TxFromContext_toContext (c : Context) (t : Nat) :
    TxFromContext (TxToContext (some c) t) = some t := rfl

/-- A frame whose context already carries a transaction changes the world
state in no way: no begin, commit or rollback event is emitted anywhere in
the chain below it. -/
lemma runProg_nested (env : DBEnv) (p : Prog) :
    ∀ (s : St) (ctx : Context) (t : Nat), TxFromContext ctx = some t →
      (runProg env p s ctx).1 = s := by
  induction p with
  | done out => intro s ctx t h; rfl
  | inTxThen body k ih1 ih2 =>
    intro s ctx t h
    rcases hre : runProg env body s (TxToContext (some ctx) t) with ⟨s2, o⟩
    have hs2 : s2 = s := by
      have hx := ih1 s (TxToContext (some ctx) t) t (TxFromContext_toContext ctx t)
      rw [hre] at hx
      exact hx
    simp only [runProg, InTx, h]
    rw [hre]
    cases o with
    | panicked v => simpa using hs2
    | norm e =>
      rw [hs2]
      exact ih2 e s ctx t h

/-- Behaviour of a root `InTx` frame whose body panics: the body runs
under the derived context without touching the world state, the begun
transaction is rolled back, and the panic value is re-raised. -/
lemma InTx_root_run_panic (env : DBEnv) (body : Prog) (s : St) (ctx : Context) (v : Nat)
    (hb : env.beginFail s.nextTx = none) (hr : TxFromContext ctx = none)
    (hp : (runProg env body ⟨s.nextTx + 1, s.trace ++ [Ev.begin s.nextTx]⟩
            (TxToContext (some ctx) s.nextTx)).2 = Outcome.panicked v) :
    InTx env (fun s2 c2 => runProg env body s2 c2) s ctx
      = (⟨s.nextTx + 1, s.trace ++ [Ev.begin s.nextTx, Ev.rollback s.nextTx]⟩,
         Outcome.panicked v) := by
  have hn := runProg_nested env body ⟨s.nextTx + 1, s.trace ++ [Ev.begin s.nextTx]⟩
      (TxToContext (some ctx) s.nextTx) s.nextTx (TxFromContext_toContext ctx s.nextTx)
  rcases hre : runProg env body ⟨s.nextTx + 1, s.trace ++ [Ev.begin s.nextTx]⟩
      (TxToContext (some ctx) s.nextTx) with ⟨s2, o⟩
  rw [hre] at hn hp
  simp only at hn hp
  subst hn
  subst hp
  simp only [InTx, hr, hb]
  rw [hre]
  simp

/-- Behaviour of a root `InTx` frame whose body returns no error: the body
runs under the derived context without touching the world state, the begun
transaction is committed, and a commit failure is propagated as-is. -/
lemma InTx_root_run_ok (env : DBEnv) (body : Prog) (s : St) (ctx : Context)
    (hb : env.beginFail s.nextTx = none) (hr : TxFromContext ctx = none)
    (hp : (runProg env body ⟨s.nextTx + 1, s.trace ++ [Ev.begin s.nextTx]⟩
            (TxToContext (some ctx) s.nextTx)).2 = Outcome.norm none) :
    InTx env (fun s2 c2 => runProg env body s2 c2) s ctx
      = (⟨s.nextTx + 1, s.trace ++ [Ev.begin s.nextTx, Ev.commit s.nextTx]⟩,
         match env.commitFail s.nextTx with
         | some ce => Outcome.norm (some ce)
         | none => Outcome.norm none) := by
  have hn := runProg_nested env body ⟨s.nextTx + 1, s.trace ++ [Ev.begin s.nextTx]⟩
      (TxToContext (some ctx) s.nextTx) s.nextTx (TxFromContext_toContext ctx s.nextTx)
  rcases hre : runProg env body ⟨s.nextTx + 1, s.trace ++ [Ev.begin s.nextTx]⟩
      (TxToContext (some ctx) s.nextTx) with ⟨s2, o⟩
  rw [hre] at hn hp
  simp only at hn hp
  subst hn
  subst hp
  simp only [InTx, hr, hb]
  rw [hre]
  simp

/-- Behaviour of a root `InTx` frame whose body returns an error: the body
runs under the derived context without touching the world state, the begun
transaction is rolled back, and the returned error is the original one,
combined with the rollback failure when rollback also fails. -/
lemma InTx_root_run_err (env : DBEnv) (body : Prog) (s : St) (ctx : Context) (e : GoErr)
    (hb : env.beginFail s.nextTx = none) (hr : TxFromContext ctx = none)
    (hp : (runProg env body ⟨s.nextTx + 1, s.trace ++ [Ev.begin s.nextTx]⟩
            (TxToContext (some ctx) s.nextTx)).2 = Outcome.norm (some e)) :
    InTx env (fun s2 c2 => runProg env body s2 c2) s ctx
      = (⟨s.nextTx + 1, s.trace ++ [Ev.begin s.nextTx, Ev.rollback s.nextTx]⟩,
         match env.rollbackFail s.nextTx with
         | some re => Outcome.norm (some (GoErr.wrapRollback e re))
         | none => Outcome.norm (some e)) := by
  have hn := runProg_nested env body ⟨s.nextTx + 1, s.trace ++ [Ev.begin s.nextTx]⟩
      (TxToContext (some ctx) s.nextTx) s.nextTx (TxFromContext_toContext ctx s.nextTx)
  rcases hre : runProg env body ⟨s.nextTx + 1, s.trace ++ [Ev.begin s.nextTx]⟩
      (TxToContext (some ctx) s.nextTx) with ⟨s2, o⟩
  rw [hre] at hn hp
  simp only at hn hp
  subst hn
  subst hp
  simp only [InTx, hr, hb]
  rw [hre]
  simp

/-- C1: across a whole chain of nested `InTx` invocations on one context
chain rooted at a frame that finds no transaction, exactly one begin and
exactly one commit-or-rollback event occur, both performed by the root on
the transaction it began; and every frame entered with a transaction in
its context leaves the world state untouched (performs no begin, commit or
rollback), merely running its body under a derived context that carries
the same transaction reference as its caller. -/
theorem InTx_root_begin_commit_once (env : DBEnv) (body : Prog) (s : St) (ctx : Context)
    (hb : env.beginFail s.nextTx = none) (hr : TxFromContext ctx = none) :
    (∃ fin, (InTx env (fun s2 c2 => runProg env body s2 c2) s ctx).1.trace
        = s.trace ++ [Ev.begin s.nextTx, fin]
      ∧ (fin = Ev.commit s.nextTx ∨ fin = Ev.rollback s.nextTx))
    ∧ (∀ (p : Prog) (s2 : St) (ctx2 : Context) (t : Nat), TxFromContext ctx2 = some t →
          (runProg env p s2 ctx2).1 = s2
          ∧ InTx env (fun s3 c3 => runProg env p s3 c3) s2 ctx2
              = runProg env p s2 (TxToContext (some ctx2) t)
          ∧ TxFromContext (TxToContext (some ctx2) t) = some t) := by
  constructor
  · cases ho : (runProg env body ⟨s.nextTx + 1, s.trace ++ [Ev.begin s.nextTx]⟩
        (TxToContext (some ctx) s.nextTx)).2 with
    | panicked v =>
      rw [InTx_root_run_panic env body s ctx v hb hr ho]
      exact ⟨Ev.rollback s.nextTx, rfl, Or.inr rfl⟩
    | norm e =>
      cases e with
      | none =>
        rw [InTx_root_run_ok env body s ctx hb hr ho]
        exact ⟨Ev.commit s.nextTx, rfl, Or.inl rfl⟩
      | some e2 =>
        rw [InTx_root_run_err env body s ctx e2 hb hr ho]
        exact ⟨Ev.rollback s.nextTx, rfl, Or.inr rfl⟩
  · intro p s2 ctx2 t h
    exact ⟨runProg_nested env p s2 ctx2 t h, by simp only [InTx, h],
      TxFromContext_toContext ctx2 t⟩

/-- C1 witness: a trivial unit of work run at the root from a fresh state
and a bare background context. -/
theorem InTx_root_begin_commit_once_witness :
    (∃ fin, (InTx env0 (fun s2 c2 => runProg env0 (Prog.done (Outcome.norm none)) s2 c2)
          st0 Context.background).1.trace
        = st0.trace ++ [Ev.begin st0.nextTx, fin]
      ∧ (fin = Ev.commit st0.nextTx ∨ fin = Ev.rollback st0.nextTx))
    ∧ (∀ (p : Prog) (s2 : St) (ctx2 : Context) (t : Nat), TxFromContext ctx2 = some t →
          (runProg env0 p s2 ctx2).1 = s2
          ∧ InTx env0 (fun s3 c3 => runProg env0 p s3 c3) s2 ctx2
              = runProg env0 p s2 (TxToContext (some ctx2) t)
          ∧ TxFromContext (TxToContext (some ctx2) t) = some t) :=
  InTx_root_begin_commit_once env0 (Prog.done (Outcome.norm none)) st0 Context.background rfl rfl

/-- C3: when the unit of work of a root frame panics, the transaction just
begun is rolled back and the original panic value is re-raised unchanged —
the frame's result is the panic itself, never a returned error. -/
theorem InTx_panic_rollback_reraise (env : DBEnv) (body : Prog) (s : St) (ctx : Context)
    (v : Nat) (hb : env.beginFail s.nextTx = none) (hr : TxFromContext ctx = none)
    (hp : (runProg env body ⟨s.nextTx + 1, s.trace ++ [Ev.begin s.nextTx]⟩
            (TxToContext (some ctx) s.nextTx)).2 = Outcome.panicked v) :
    InTx env (fun s2 c2 => runProg env body s2 c2) s ctx
      = (⟨s.nextTx + 1, s.trace ++ [Ev.begin s.nextTx, Ev.rollback s.nextTx]⟩,
         Outcome.panicked v) :=
  InTx_root_run_panic env body s ctx v hb hr hp

/-- C3 witness: a unit of work that immediately panics with value 7. -/
theorem InTx_panic_rollback_reraise_witness :
    InTx env0 (fun s2 c2 => runProg env0 (Prog.done (Outcome.panicked 7)) s2 c2)
        st0 Context.background
      = (⟨st0.nextTx + 1, st0.trace ++ [Ev.begin st0.nextTx, Ev.rollback st0.nextTx]⟩,
         Outcome.panicked 7) :=
  InTx_panic_rollback_reraise env0 (Prog.done (Outcome.panicked 7)) st0 Context.background 7
    rfl rfl rfl

lemma errorsIs_self (e : GoErr) : errorsIs e e = true := by
  cases e <;> simp [errorsIs]

lemma errorsIs_wrapRollback (e re : GoErr) :
    errorsIs (GoErr.wrapRollback e re) e = true := by
  simp [errorsIs, errorsIs_self]

/-- C4: when the unit of work of a root frame returns an error, a rollback
is attempted; if rollback succeeds the original error is returned as-is,
and if rollback fails the frame returns the single combined error wrapping
the original error together with the rollback failure, with the original
error still identifiable by unwrapping. -/
theorem InTx_error_rollback_combine (env : DBEnv) (body : Prog) (s : St) (ctx : Context)
    (e : GoErr) (hb : env.beginFail s.nextTx = none) (hr : TxFromContext ctx = none)
    (hf : (runProg env body ⟨s.nextTx + 1, s.trace ++ [Ev.begin s.nextTx]⟩
            (TxToContext (some ctx) s.nextTx)).2 = Outcome.norm (some e)) :
    (InTx env (fun s2 c2 => runProg env body s2 c2) s ctx).1
      = ⟨s.nextTx + 1, s.trace ++ [Ev.begin s.nextTx, Ev.rollback s.nextTx]⟩
    ∧ (match env.rollbackFail s.nextTx with
       | none =>
           (InTx env (fun s2 c2 => runProg env body s2 c2) s ctx).2 = Outcome.norm (some e)
       | some re =>
           (InTx env (fun s2 c2 => runProg env body s2 c2) s ctx).2
             = Outcome.norm (some (GoErr.wrapRollback e re))
           ∧ errorsIs (GoErr.wrapRollback e re) e = true) := by
  have hrun := InTx_root_run_err env body s ctx e hb hr hf
  cases hrb : env.rollbackFail s.nextTx with
  | none =>
    rw [hrb] at hrun
    exact ⟨by rw [hrun], by rw [hrun]⟩
  | some re =>
    rw [hrb] at hrun
    exact ⟨by rw [hrun], ⟨by rw [hrun], errorsIs_wrapRollback e re⟩⟩

/-- C4 witness: a unit of work returning a base error under a collaborator
whose rollback succeeds. -/
theorem InTx_error_rollback_combine_witness :
    (InTx env0 (fun s2 c2 => runProg env0 (Prog.done (Outcome.norm (some (GoErr.base 5)))) s2 c2)
        st0 Context.background).1
      = ⟨st0.nextTx + 1, st0.trace ++ [Ev.begin st0.nextTx, Ev.rollback st0.nextTx]⟩
    ∧ (match env0.rollbackFail st0.nextTx with
       | none =>
           (InTx env0 (fun s2 c2 => runProg env0 (Prog.done (Outcome.norm (some (GoErr.base 5)))) s2 c2)
               st0 Context.background).2 = Outcome.norm (some (GoErr.base 5))
       | some re =>
           (InTx env0 (fun s2 c2 => runProg env0 (Prog.done (Outcome.norm (some (GoErr.base 5)))) s2 c2)
               st0 Context.background).2
             = Outcome.norm (some (GoErr.wrapRollback (GoErr.base 5) re))
           ∧ errorsIs (GoErr.wrapRollback (GoErr.base 5) re) (GoErr.base 5) = true) :=
  InTx_error_rollback_combine env0 (Prog.done (Outcome.norm (some (GoErr.base 5)))) st0
    Context.background (GoErr.base 5) rfl rfl rfl

/-- C6 counterexample: a probe unit of work that reports an error exactly
when the context it receives differs from the original context.  Run as a
nested frame on a context already carrying a transaction, the probe
reports the error: the unit of work was handed a newly derived context,
not the caller's context value unmodified, refuting the claim as
written. -/
theorem InTx_nested_context_counterexample :
    (InTx env0
        (fun s c =>
          (s, if c = ctx0 then Outcome.norm none else Outcome.norm (some (GoErr.base 0))))
        st0 ctx0).2
      = Outcome.norm (some (GoErr.base 0)) := by decide

/-- C6 (amended): a frame whose context already carries transaction `t`
runs the unit of work with the context derived from the caller's context
by re-attaching the same transaction reference `t` (so the transaction
observed inside is identical), and the frame itself begins, commits, and
rolls back nothing — its entire effect is exactly the unit of work's. -/
theorem InTx_nested_derived_context (env : DBEnv) (fn : St → Context → St × Outcome)
    (s : St) (ctx : Context) (t : Nat) (h : TxFromContext ctx = some t) :
    InTx env fn s ctx = fn s (TxToContext (some ctx) t)
    ∧ TxFromContext (TxToContext (some ctx) t) = some t := by
  refine ⟨?_, TxFromContext_toContext ctx t⟩
  simp only [InTx, h]

/-- C6 witness: a nested frame over a context carrying transaction 0. -/
theorem InTx_nested_derived_context_witness :
    InTx env0 (fun s _ => (s, Outcome.norm none)) st0 ctx0
      = (fun (s : St) (_ : Context) => (s, Outcome.norm none)) st0 (TxToContext (some ctx0) 0)
    ∧ TxFromContext (TxToContext (some ctx0) 0) = some 0 :=
  InTx_nested_derived_context env0 (fun s _ => (s, Outcome.norm none)) st0 ctx0 0 rfl

end Bunutils
